import Mathlib

/-!
Verification development for the `pdf_to_markdown` converter
(`src/pdf_to_markdown.py`).  The Python code is shallowly embedded:

* Python floats (font sizes, bounding-box coordinates) are modelled as `ℚ`;
  Python's `round` (banker's rounding, ties to even) is `roundHE`, and
  `round(x, 1)` is `round1`.
* Python strings are Lean `String`s; `str.strip` is `pystrip` (ASCII
  whitespace), `str.lower` is `pylower` (ASCII case folding), `str.replace`
  is `pyreplace` (left-to-right, non-overlapping), `"sub" in s` is
  `containsSub`.
* Python dicts built by insertion (`defaultdict(int)` / `defaultdict(list)`)
  are insertion-ordered association lists, mutated by `counterIncr` /
  `dictAppend`; `sorted` is Mathlib's stable `List.insertionSort`.
* `fitz` page extraction is the data model `Span`/`Line`/`Block`/`Page`
  (the collaborator contract of the spec); image extraction is modelled by
  the page's list of image reference strings.
* The one Python exception reachable from the claims (float division by
  zero in `normalize_font_size`) is modelled by an `Except` variant of the
  normalizer; elsewhere functions are total exactly as the code is.
-/

set_option allowUnsafeReducibility true in
attribute [semireducible] Rat.sub Rat.add Rat.mul Rat.inv Rat.div

/-- ASCII whitespace, the characters Python's `str.strip` and the regex
class `\s` treat as blanks (Python additionally covers some Unicode
spaces; none occur in the claims). -/
def isSpaceCh (c : Char) : Bool :=
  c = ' ' || c = '\t' || c = '\n' || c = '\r' || c = '\x0b' || c = '\x0c'

/-- Python `str.strip()`: drop leading and trailing whitespace. -/
def pystrip (s : String) : String :=
  ⟨((s.data.dropWhile isSpaceCh).reverse.dropWhile isSpaceCh).reverse⟩

/-- Python `str.lower()` (ASCII). -/
def pylower (s : String) : String :=
  ⟨s.data.map Char.toLower⟩

/-- Python `needle in hay` on strings: substring test. -/
def containsSubL (hay needle : List Char) : Bool :=
  match hay with
  | [] => needle.isEmpty
  | _ :: t => needle.isPrefixOf hay || containsSubL t needle

/-- Python `needle in hay` on `String`s. -/
def containsSub (hay needle : String) : Bool :=
  containsSubL hay.data needle.data

/-- Python `s.replace(pat, rep)` for a non-empty pattern: left-to-right,
non-overlapping replacement of every occurrence.  Structural recursion on a
fuel argument (any fuel at least the input length gives the replacement;
the scanned suffix shrinks by at least one character per step).  (For an
empty pattern the code never calls `replace`; we return the input
unchanged.) -/
def pyreplaceAux (pat rep : List Char) : ℕ → List Char → List Char
  | 0, s => s
  | _ + 1, [] => []
  | fuel + 1, c :: rest =>
    if !pat.isEmpty && pat.isPrefixOf (c :: rest) then
      rep ++ pyreplaceAux pat rep fuel ((c :: rest).drop pat.length)
    else
      c :: pyreplaceAux pat rep fuel rest

/-- Python `s.replace(pat, rep)`. -/
def pyreplaceL (pat rep s : List Char) : List Char :=
  pyreplaceAux pat rep s.length s

/-- Python `s.replace(pat, rep)` on `String`s. -/
def pyreplace (s pat rep : String) : String :=
  ⟨pyreplaceL pat.data rep.data s.data⟩

/-- Floor of a rational, computably: euclidean division of the numerator by
the (positive) denominator. -/
def ratFloor (q : ℚ) : ℤ :=
  q.num.ediv q.den

/-- Absolute value of a rational, as Python's `abs`. -/
def pyabs (q : ℚ) : ℚ :=
  if q < 0 then -q else q

/-- Python `round(q)`: round to the nearest integer, ties to the even
integer (banker's rounding). -/
def roundHE (q : ℚ) : ℤ :=
  let f := ratFloor q
  let r := q - f
  if r < 1/2 then f
  else if 1/2 < r then f + 1
  else if f % 2 = 0 then f else f + 1

/-- Python `round(q, 1)`: round to one decimal place, ties to even. -/
def round1 (q : ℚ) : ℚ :=
  (roundHE (10 * q) : ℚ) / 10

/-- The Python errors reachable from the claims. -/
inductive PyError where
  | zeroDivisionError
  deriving DecidableEq, Repr

/-- Embedding of `PDFToMarkdownConverter.normalize_font_size`, lines 25-36: if the
tolerance is at least 1.0 round the size to the nearest integer, otherwise
round it to the nearest multiple of the tolerance; the result is rounded to
one decimal place.  Pure model, used wherever the tolerance is nonzero (the
division `size / tolerance` is then defined). -/
def normalize_font_size (tolerance size : ℚ) : ℚ :=
  if 1 ≤ tolerance then
    round1 (roundHE size)
  else
    round1 ((roundHE (size / tolerance) : ℚ) * tolerance)

/-- Variant of `normalize_font_size` with Python's division semantics made explicit:
when the tolerance is below 1.0 the code computes `size / tolerance`, and a
zero tolerance raises `ZeroDivisionError` (Python float division by zero
raises rather than returning infinity). -/
def normalize_font_sizeE (tolerance size : ℚ) : Except PyError ℚ :=
  if 1 ≤ tolerance then
    Except.ok (round1 (roundHE size))
  else if tolerance = 0 then
    Except.error PyError.zeroDivisionError
  else
    Except.ok (round1 ((roundHE (size / tolerance) : ℚ) * tolerance))

/-- ASCII letter. -/
def isAsciiAlphaCh (c : Char) : Bool :=
  ('a' ≤ c && c ≤ 'z') || ('A' ≤ c && c ≤ 'Z')

/-- ASCII digit. -/
def isDigitCh (c : Char) : Bool :=
  '0' ≤ c && c ≤ '9'

/-- The character class `[a-zA-Z0-9_]` of the code's regexes. -/
def isIdentCh (c : Char) : Bool :=
  isAsciiAlphaCh c || isDigitCh c || c = '_'

/-- Embedding of `PDFToMarkdownConverter.is_bold`, lines 38-49: a bold keyword occurs in
the lowercased font name, or bit 16 of the flag mask is set. -/
def is_bold (font_name : String) (font_flags : ℕ) : Bool :=
  let bold_keywords := ["bold", "heavy", "black", "semibold", "demibold"]
  let font_lower := pylower font_name
  let has_bold_name := bold_keywords.any fun keyword => containsSub font_lower keyword
  let has_bold_flag := (font_flags &&& (1 <<< 16)) != 0
  has_bold_name || has_bold_flag

/-- Embedding of `PDFToMarkdownConverter.is_italic`, lines 51-62: an italic keyword occurs
in the lowercased font name, or bit 6 of the flag mask is set. -/
def is_italic (font_name : String) (font_flags : ℕ) : Bool :=
  let italic_keywords := ["italic", "oblique", "slant"]
  let font_lower := pylower font_name
  let has_italic_name := italic_keywords.any fun keyword => containsSub font_lower keyword
  let has_italic_flag := (font_flags &&& (1 <<< 6)) != 0
  has_italic_name || has_italic_flag

/-- Regex `^\s*(def|class|import|from|if|for|while|return)\s+` of
`is_code_block`: after leading whitespace, a keyword followed by at least
one whitespace character. -/
def codePatternKeyword (cs : List Char) : Bool :=
  let t := cs.dropWhile isSpaceCh
  ["def", "class", "import", "from", "if", "for", "while", "return"].any fun kw =>
    kw.data.isPrefixOf t &&
      match t.drop kw.data.length with
      | c :: _ => isSpaceCh c
      | [] => false

/-- Regex `[\{\}\[\]\(\);]` of `is_code_block`: the text contains a brace,
bracket, parenthesis or semicolon. -/
def codePatternPunct (cs : List Char) : Bool :=
  cs.any fun c => c = '\x7b' || c = '\x7d' || c = '[' || c = ']'
    || c = '(' || c = ')' || c = ';'

/-- Regex `^\s*[a-zA-Z_][a-zA-Z0-9_]*\s*=` of `is_code_block`: after leading
whitespace an identifier, then optional whitespace, then `=`. -/
def codePatternAssign (cs : List Char) : Bool :=
  match cs.dropWhile isSpaceCh with
  | [] => false
  | c :: rest =>
    (isAsciiAlphaCh c || c = '_') &&
      match (rest.dropWhile isIdentCh).dropWhile isSpaceCh with
      | '=' :: _ => true
      | _ => false

/-- Regex `^\s*//|^\s*#|^\s*/\*` of `is_code_block`: after leading
whitespace a `//`, `#` or `/*` comment marker. -/
def codePatternComment (cs : List Char) : Bool :=
  let t := cs.dropWhile isSpaceCh
  ['/', '/'].isPrefixOf t || ['#'].isPrefixOf t || ['/', '*'].isPrefixOf t

/-- Embedding of `PDFToMarkdownConverter.is_code_block`, lines 185-201: a monospace font
keyword occurs in the lowercased font name, or the text matches one of the
four code-like regex patterns. -/
def is_code_block (font_name text : String) : Bool :=
  let code_fonts := ["courier", "mono", "consola", "code"]
  let is_monospace := code_fonts.any fun cf => containsSub (pylower font_name) cf
  let has_code_pattern :=
    codePatternKeyword text.data || codePatternPunct text.data
      || codePatternAssign text.data || codePatternComment text.data
  is_monospace || has_code_pattern

/-- An axis-aligned bounding box `(x0, y0, x1, y1)` as the extraction
collaborator provides it. -/
structure BBox where
  x0 : ℚ
  y0 : ℚ
  x1 : ℚ
  y1 : ℚ
  deriving DecidableEq, Repr

/-- A text span: `{text, size, font, flags}` of the extraction dict. -/
structure Span where
  text : String
  size : ℚ
  font : String
  flags : ℕ
  deriving DecidableEq, Repr

/-- A line: its bounding box and its spans. -/
structure Line where
  bbox : BBox
  spans : List Span
  deriving DecidableEq, Repr

/-- A block: its bounding box and, when it is a text block (`"lines" in
block`), its lines; an image block has none. -/
structure Block where
  bbox : BBox
  lines : Option (List Line)
  deriving DecidableEq, Repr

/-- A page: its blocks plus the image references the image-extraction
collaborator yields for it (modelled as the relative path strings
`extract_images` returns). -/
structure Page where
  blocks : List Block
  images : List String
  deriving DecidableEq, Repr

/-- The cell text `detect_table` builds for one line (lines 80-83): every
span text concatenated with a trailing space, then stripped — equal to the
space-joined, trimmed concatenation of the span texts. -/
def lineCellText (l : Line) : String :=
  pystrip (l.spans.foldl (fun acc s => acc ++ s.text ++ " ") "")

/-- One step of a Python `defaultdict(list)`: `rows[k].append(v)`.  An
existing key keeps its place and gets `v` appended; a new key is inserted
at the end. -/
def dictAppend (d : List (ℚ × List (ℚ × String))) (k : ℚ) (v : ℚ × String) :
    List (ℚ × List (ℚ × String)) :=
  if d.any fun e => e.1 = k then
    d.map fun e => if e.1 = k then (e.1, e.2 ++ [v]) else e
  else
    d ++ [(k, [v])]

/-- One step of a Python `defaultdict(int)` used as a counter:
`d[k] += 1`. -/
def counterIncr (d : List (ℚ × ℕ)) (k : ℚ) : List (ℚ × ℕ) :=
  if d.any fun e => e.1 = k then
    d.map fun e => if e.1 = k then (e.1, e.2 + 1) else e
  else
    d ++ [(k, 1)]

/-- Count held by a counter dict for a key (0 when absent). -/
def lookupCount (d : List (ℚ × ℕ)) (k : ℚ) : ℕ :=
  match d.find? fun e => e.1 = k with
  | some e => e.2
  | none => 0

/-- The `(row key, column key, cell text)` triples `detect_table` appends
into `rows`, in append order (lines 72-87): per text block, per line with
non-empty cell text, the row key is the *block's* bounding-box top Y
rounded to one decimal and the column key is the line's bounding-box left X
rounded to one decimal. -/
def blockRowEntries (b : Block) : List (ℚ × ℚ × String) :=
  match b.lines with
  | none => []
  | some ls =>
    ls.filterMap fun l =>
      let text := lineCellText l
      if text = "" then none
      else some (round1 b.bbox.y0, round1 l.bbox.x0, text)

/-- All row entries of a page's blocks, in the code's append order. -/
def rowEntries (blocks : List Block) : List (ℚ × ℚ × String) :=
  blocks.flatMap blockRowEntries

/-- The row entries as claim C1 words them: the row key taken from the
*line's own* bounding-box top Y instead of the block's. -/
def blockRowEntriesLineY (b : Block) : List (ℚ × ℚ × String) :=
  match b.lines with
  | none => []
  | some ls =>
    ls.filterMap fun l =>
      let text := lineCellText l
      if text = "" then none
      else some (round1 l.bbox.y0, round1 l.bbox.x0, text)

/-- All row entries under claim C1's reading. -/
def rowEntriesLineY (blocks : List Block) : List (ℚ × ℚ × String) :=
  blocks.flatMap blockRowEntriesLineY

/-- Python `min(range(len(common)), key=lambda i: abs(common[i] - x))`
(lines 114-115): the first index of `common` minimizing the absolute
distance to `x`. -/
def argminAbs (common : List ℚ) (x : ℚ) : ℕ :=
  (List.range common.length).foldl
    (fun best i =>
      if pyabs (common.get! i - x) < pyabs (common.get! best - x) then i else best) 0

/-- Embedding of `PDFToMarkdownConverter.detect_table`, lines 64-122, after the `rows`
dict has been built from the given entries: require at least two rows, sort
rows by Y, tally how many cells sit at each distinct X, keep the X keys
counted at least twice (in first-appearance order), require at least two of
them, then build the grid by assigning each cell (cells sorted by X,
stably) to the nearest common column, later cells overwriting earlier
ones. -/
def detect_tableFrom (entries : List (ℚ × ℚ × String)) :
    Option (List (List String)) :=
  let rows := entries.foldl (fun d e => dictAppend d e.1 e.2) []
  if rows.length < 2 then none
  else
    let sorted_rows := List.insertionSort (fun a b => a.1 ≤ b.1) rows
    let x_positions :=
      sorted_rows.foldl (fun xp row => row.2.foldl (fun xp c => counterIncr xp c.1) xp) []
    let common_x_positions := (x_positions.filter fun e => 2 ≤ e.2).map Prod.fst
    if 2 ≤ common_x_positions.length then
      let table_data := sorted_rows.map fun row =>
        let cells_sorted := List.insertionSort (fun a b => a.1 ≤ b.1) row.2
        cells_sorted.foldl
          (fun r c => r.set (argminAbs common_x_positions c.1) c.2)
          (List.replicate common_x_positions.length "")
      if 2 ≤ table_data.length then some table_data else none
    else none

/-- Function `detect_table` as the code runs: row keys from the enclosing block's
top Y. -/
def detect_table (blocks : List Block) : Option (List (List String)) :=
  detect_tableFrom (rowEntries blocks)

/-- Function `detect_table` as claim C1 words it: row keys from each line's own
top Y. -/
def detect_tableLineRowKey (blocks : List Block) : Option (List (List String)) :=
  detect_tableFrom (rowEntriesLineY blocks)

/-- Python `s.ljust(w)`: pad on the right with spaces to width `w`. -/
def ljust (s : String) (w : ℕ) : String :=
  s ++ ⟨List.replicate (w - s.length) ' '⟩

/-- Embedding of `PDFToMarkdownConverter.format_table_markdown`, lines 124-156.  The
column-width loop also leaves the Python variable `cell` bound to the last
cell it enumerated (the last cell of the last row); the data-row generator
expression at line 152 refers to that stale `cell`, not to the current
row's cells, so every filled data-row slot renders the stale cell.  The
fold therefore carries `(col_widths, cell)`. -/
def format_table_markdown (table_data : List (List String)) : String :=
  match table_data with
  | [] => ""
  | row0 :: rest =>
    let num_cols := ((row0 :: rest).map List.length).foldl max 0
    let widthsAndCell :=
      (row0 :: rest).foldl
        (fun acc row =>
          row.enum.foldl
            (fun (acc : List ℕ × String) ic =>
              if ic.1 < num_cols then
                (acc.1.set ic.1 (max (acc.1.get! ic.1) ic.2.length), ic.2)
              else (acc.1, ic.2))
            acc)
        (List.replicate num_cols 0, "")
    let col_widths := widthsAndCell.1
    let cell := widthsAndCell.2
    let header :=
      "| " ++ String.intercalate " | "
        (row0.enum.map fun ic => ljust ic.2 (col_widths.get! ic.1)) ++ " |"
    let separator :=
      "|" ++ String.intercalate "|"
        (col_widths.map fun w => (⟨List.replicate (w + 2) '-'⟩ : String)) ++ "|"
    let dataRows := rest.map fun row =>
      "| " ++ String.intercalate " | "
        ((List.range num_cols).map fun i =>
          if i < row.length then ljust cell (col_widths.get! i)
          else (⟨List.replicate (col_widths.get! i) ' '⟩ : String)) ++ " |"
    String.intercalate "\n" (header :: separator :: dataRows)

/-- Every span of a document, in reading order (page, block, line, span):
the iteration order of `analyze_font_sizes`, lines 162-167. -/
def docSpans (doc : List Page) : List Span :=
  doc.flatMap fun p =>
    p.blocks.flatMap fun b =>
      match b.lines with
      | none => []
      | some ls => ls.flatMap fun l => l.spans

/-- Pass 1 of `analyze_font_sizes`, lines 158-172: the tally
`self.font_sizes` of occurrences per normalized size.  (The code also
tallies raw sizes and records the raw-to-normalized map; nothing downstream
reads them.) -/
def tallySizes (tolerance : ℚ) (doc : List Page) : List (ℚ × ℕ) :=
  (docSpans doc).foldl
    (fun d s => counterIncr d (normalize_font_size tolerance s.size)) []

/-- Embedding of `sorted(self.font_sizes.keys(), reverse=True)`, line 175. -/
def sortSizesDesc (sizes : List ℚ) : List ℚ :=
  List.insertionSort (fun a b => b ≤ a) sizes

/-- The acceptance-gated level-assignment loop of lines 178-183: walk the
candidate sizes in order with a level counter starting at 1; a size whose
tally exceeds 2 is mapped to the current level and the counter advances,
any other size is skipped without consuming a level. -/
def assignLevels (fs : List (ℚ × ℕ)) : List ℚ → ℕ → List (ℚ × ℕ)
  | [], _ => []
  | s :: rest, heading_level =>
    if 2 < lookupCount fs s then
      (s, heading_level) :: assignLevels fs rest (heading_level + 1)
    else
      assignLevels fs rest heading_level

/-- Pass 2 of `analyze_font_sizes`, lines 174-183: `self.size_to_heading`,
built from the top 6 tallied sizes in descending order. -/
def size_to_heading (fs : List (ℚ × ℕ)) : List (ℚ × ℕ) :=
  assignLevels fs ((sortSizesDesc (fs.map Prod.fst)).take 6) 1

/-- Embedding of `current_font_size in self.size_to_heading` and the lookup,
lines 340-341. -/
def lookupLevel (hm : List (ℚ × ℕ)) (s : ℚ) : Option ℕ :=
  (hm.find? fun e => e.1 = s).map Prod.snd

/-- Embedding of `line_text.replace("**", "").replace("*", "")`, the emphasis-marker
stripping applied to code lines (line 329) and headings (line 344). -/
def cleanText (s : String) : String :=
  pyreplace (pyreplace s "**" "") "*" ""

/-- The emphasis wrap of one span, lines 302-308: bold and italic give a
triple marker, bold alone a double, italic alone a single, neither leaves
the stripped text unwrapped. -/
def formatSpanText (s : Span) : String :=
  let text := pystrip s.text
  if is_bold s.font s.flags && is_italic s.font s.flags then
    "***" ++ text ++ "***"
  else if is_bold s.font s.flags then
    "**" ++ text ++ "**"
  else if is_italic s.font s.flags then
    "*" ++ text ++ "*"
  else
    text

/-- The span loop of `convert_to_markdown`, lines 282-316: spans whose
stripped text is empty are skipped; the rest contribute their formatted
text, and the line's representative `(normalized size, font name)` is the
last non-empty span's. -/
def foldSpans (tolerance : ℚ) (spans : List Span) :
    List String × Option (ℚ × String) :=
  spans.foldl
    (fun acc s =>
      if pystrip s.text = "" then acc
      else (acc.1 ++ [formatSpanText s],
            some (normalize_font_size tolerance s.size, s.font)))
    ([], none)

/-- Embedding of `line_text = " ".join(formatted_spans)`, line 318. -/
def lineTextOf (tolerance : ℚ) (l : Line) : String :=
  String.intercalate " " (foldSpans tolerance l.spans).1

/-- Value of `current_font_name` when the line is classified (`""` when no span was
kept, as initialized at line 278). -/
def lineFontOf (tolerance : ℚ) (l : Line) : String :=
  match (foldSpans tolerance l.spans).2 with
  | some fsfn => fsfn.2
  | none => ""

/-- Value of `current_font_size` when the line is classified (`None` when no span
was kept, line 277). -/
def lineSizeOf (tolerance : ℚ) (l : Line) : Option ℚ :=
  ((foldSpans tolerance l.spans).2).map Prod.fst

/-- Embedding of `"#" * heading_level`, line 342. -/
def headingMarker (heading_level : ℕ) : String :=
  ⟨List.replicate heading_level '#'⟩

/-- The mutable state of the convert pass: the emitted units
`markdown_content`, the code-run flag and pending buffer (lines 250-252),
and the heading records `self.headings`.  `opens`/`closes` are ghost
counters incremented exactly at the two fence-emitting sites (lines 327 and
335/364), so fence balance can be stated about what the pass opens and
closes. -/
structure ConvState where
  markdown_content : List String
  in_code_block : Bool
  code_buffer : List String
  headings : List (ℕ × String)
  opens : ℕ
  closes : ℕ
  deriving DecidableEq, Repr

/-- The state at the start of `convert_to_markdown` (lines 250-252; the
heading list starts empty for a fresh converter, line 20). -/
def initState : ConvState :=
  ⟨[], false, [], [], 0, 0⟩

/-- One line of the line-level dispatch, lines 275-355.  An empty composed
line is skipped (line 320).  A code-classified line opens a fence when not
already in a code run and buffers its stripped text (lines 324-330).  A
non-code line first flushes an open code run (lines 333-337), then is
emitted as a heading when its representative size is in the heading map
(lines 340-346) and as a paragraph otherwise (the list-pattern check at
lines 349-353 assigns the same value in both arms, a no-op). -/
def processLine (hm : List (ℚ × ℕ)) (tolerance : ℚ) (st : ConvState)
    (l : Line) : ConvState :=
  let line_text := lineTextOf tolerance l
  if line_text = "" then st
  else if is_code_block (lineFontOf tolerance l) line_text then
    let st1 :=
      if !st.in_code_block then
        { st with in_code_block := true,
                  markdown_content := st.markdown_content ++ ["```"],
                  opens := st.opens + 1 }
      else st
    { st1 with code_buffer := st1.code_buffer ++ [cleanText line_text] }
  else
    let st1 :=
      if st.in_code_block then
        { st with
            markdown_content := st.markdown_content ++ st.code_buffer ++ ["```\n"],
            code_buffer := [],
            in_code_block := false,
            closes := st.closes + 1 }
      else st
    match (lineSizeOf tolerance l).bind (lookupLevel hm) with
    | some heading_level =>
      let clean_heading := cleanText line_text
      { st1 with
          markdown_content :=
            st1.markdown_content ++ [headingMarker heading_level ++ " " ++ clean_heading],
          headings := st1.headings ++ [(heading_level, clean_heading)] }
    | none =>
      { st1 with markdown_content := st1.markdown_content ++ [line_text] }

/-- One page of the convert pass, lines 254-359: when table detection is on
and finds a table, emit the rendered table followed by the page's image
references and skip line-level processing; otherwise process every line of
every text block, then append the page's image references. -/
def processPage (hm : List (ℚ × ℕ)) (tolerance : ℚ) (detect_tables : Bool)
    (st : ConvState) (p : Page) : ConvState :=
  let imageLines := p.images.map fun img_ref => "\n![Image](" ++ img_ref ++ ")\n"
  match (if detect_tables then detect_table p.blocks else none) with
  | some table_data =>
    { st with markdown_content :=
        st.markdown_content
          ++ ["\n" ++ format_table_markdown table_data ++ "\n"] ++ imageLines }
  | none =>
    let st1 :=
      p.blocks.foldl
        (fun st b =>
          match b.lines with
          | none => st
          | some ls => ls.foldl (processLine hm tolerance) st)
        st
    { st1 with markdown_content := st1.markdown_content ++ imageLines }

/-- The convert-pass state after the first `k` pages, with the heading map
computed by the analysis pass over the whole document (line 248). -/
def convertStateAfter (tolerance : ℚ) (detect_tables : Bool) (doc : List Page)
    (k : ℕ) : ConvState :=
  (doc.take k).foldl
    (processPage (size_to_heading (tallySizes tolerance doc)) tolerance detect_tables)
    initState

/-- The state after all pages followed by the final flush of lines 361-364:
a still-open code run has its buffer emitted and its fence closed. -/
def finalState (tolerance : ℚ) (detect_tables : Bool) (doc : List Page) :
    ConvState :=
  let st := convertStateAfter tolerance detect_tables doc doc.length
  if st.in_code_block then
    { st with
        markdown_content := st.markdown_content ++ st.code_buffer ++ ["```\n"],
        closes := st.closes + 1 }
  else st

/-- The heading records collected by a convert pass. -/
def headingsOf (tolerance : ℚ) (detect_tables : Bool) (doc : List Page) :
    List (ℕ × String) :=
  (finalState tolerance detect_tables doc).headings

/-- Embedding of `"\n\n".join(markdown_content)`, line 367. -/
def bodyOf (tolerance : ℚ) (detect_tables : Bool) (doc : List Page) : String :=
  String.intercalate "\n\n" (finalState tolerance detect_tables doc).markdown_content

/-- The anchor derivation of `generate_toc`, lines 239-241: lowercase, keep
only word characters, whitespace and hyphens, collapse every run of
hyphens/whitespace into one hyphen.  Structural recursion on fuel (the
scanned suffix shrinks each step, so fuel = input length is enough). -/
def collapseRunsAux : ℕ → List Char → List Char
  | 0, s => s
  | _ + 1, [] => []
  | fuel + 1, c :: rest =>
    if isSpaceCh c || c = '-' then
      '-' :: collapseRunsAux fuel (rest.dropWhile fun d => isSpaceCh d || d = '-')
    else
      c :: collapseRunsAux fuel rest

/-- Collapse runs of hyphens/whitespace into a single hyphen
(`re.sub(r'[-\s]+', '-', anchor)`). -/
def collapseRuns (s : List Char) : List Char :=
  collapseRunsAux s.length s

/-- The GitHub-style anchor of a heading text. -/
def anchorOf (text : String) : String :=
  let kept := (pylower text).data.filter fun c => isIdentCh c || isSpaceCh c || c = '-'
  ⟨collapseRuns kept⟩

/-- Embedding of `PDFToMarkdownConverter.generate_toc`, lines 230-244. -/
def generate_toc (headings : List (ℕ × String)) : String :=
  if headings.isEmpty then ""
  else
    (headings.foldl
      (fun toc lt =>
        let indent := String.join (List.replicate (lt.1 - 1) "  ")
        toc ++ indent ++ "- [" ++ lt.2 ++ "](#" ++ anchorOf lt.2 ++ ")\n")
      "## Table of Contents\n\n")
    ++ "\n"

/-- Embedding of `PDFToMarkdownConverter.convert_to_markdown`, lines 246-374: the joined
emitted units, with the TOC prepended when requested and at least one
heading was recorded (lines 369-372). -/
def convert_to_markdown (tolerance : ℚ) (include_toc detect_tables : Bool)
    (doc : List Page) : String :=
  let full_content := bodyOf tolerance detect_tables doc
  if include_toc && !(headingsOf tolerance detect_tables doc).isEmpty then
    generate_toc (headingsOf tolerance detect_tables doc) ++ full_content
  else
    full_content

/-- A page layout with one block spanning two visual rows: the block's top
is at Y = 0 while its second line sits at Y = 10, and a second block at
Y = 20 holds an aligned pair of cells.  Under the code's row keys (block
top Y) this is a 2x2 grid; under line-own row keys it is a 3-row grid. -/
def exampleTableBlocks : List Block :=
  [ ⟨⟨0, 0, 100, 15⟩,
      some [⟨⟨0, 0, 20, 10⟩, [⟨"A", 12, "Arial", 0⟩]⟩,
            ⟨⟨50, 10, 70, 15⟩, [⟨"B", 12, "Arial", 0⟩]⟩]⟩,
    ⟨⟨0, 20, 100, 30⟩,
      some [⟨⟨0, 20, 20, 30⟩, [⟨"C", 12, "Arial", 0⟩]⟩,
            ⟨⟨50, 20, 70, 30⟩, [⟨"D", 12, "Arial", 0⟩]⟩]⟩ ]

/-- A page holding a single line in a monospace font (classified as code by
`is_code_block`). -/
def exampleCodePage (t : String) : Page :=
  ⟨[⟨⟨0, 0, 10, 10⟩, some [⟨⟨0, 0, 10, 10⟩, [⟨t, 12, "Courier", 0⟩]⟩]⟩], []⟩

/-- A two-page document whose only content is one code line per page: the
code run opened on page one is still open at the page boundary. -/
def exampleCodeDoc : List Page :=
  [exampleCodePage "x", exampleCodePage "y"]

/-- A one-page document with three lines of text "Title" at size 20: the
tally of canonical size 20 is 3 (> 2), so "Title" becomes a level-1
heading and three heading records are collected. -/
def exampleTitleDoc : List Page :=
  [⟨[⟨⟨0, 0, 10, 10⟩,
      some [⟨⟨0, 0, 10, 10⟩, [⟨"Title", 20, "Arial", 0⟩]⟩,
            ⟨⟨0, 12, 10, 22⟩, [⟨"Title", 20, "Arial", 0⟩]⟩,
            ⟨⟨0, 24, 10, 34⟩, [⟨"Title", 20, "Arial", 0⟩]⟩]⟩], []⟩]

theorem ratFloor_intCast (n : ℤ) : ratFloor (n : ℚ) = n := by
  simp only [ratFloor, Rat.num_intCast, Rat.den_intCast]
  rcases n with m | m <;> simp [Int.ediv, Nat.div_one]

theorem roundHE_intCast (n : ℤ) : roundHE (n : ℚ) = n := by
  simp only [roundHE, ratFloor_intCast, sub_self]
  norm_num

theorem round1_intCast (n : ℤ) : round1 (n : ℚ) = (n : ℚ) := by
  have h10 : ((10 : ℚ) * n) = ((10 * n : ℤ) : ℚ) := by push_cast; ring
  rw [round1, h10, roundHE_intCast]
  push_cast
  ring

theorem normalize_font_size_int (tolerance x : ℚ) (h : 1 ≤ tolerance) :
    normalize_font_size tolerance x = ((roundHE x : ℤ) : ℚ) := by
  simp [normalize_font_size, h, round1_intCast]

/-- C3, counterexample: at tolerance 0 (a value outside `(0, 2]` the claim
says is accepted without any error) the positive raw size 5 makes
`normalize_font_size` raise `ZeroDivisionError`: the code divides
`size / tolerance` and Python float division by zero raises. -/
theorem normalize_zero_tolerance_raises :
    normalize_font_sizeE 0 5 = Except.error PyError.zeroDivisionError ∧ (0 : ℚ) < 5 := by
  constructor
  · rfl
  · norm_num

/-- C3, amended: for every positive raw size and every *nonzero* tolerance
(including negative values and values above 2) normalization returns a
canonical size without raising; tolerance 0 is the one exception, where the
division `size / tolerance` raises `ZeroDivisionError`. -/
theorem normalize_total_of_nonzero_tolerance (tolerance size : ℚ)
    (ht : tolerance ≠ 0) (hs : 0 < size) :
    normalize_font_sizeE tolerance size =
      Except.ok (normalize_font_size tolerance size) := by
  unfold normalize_font_sizeE normalize_font_size
  by_cases h1 : 1 ≤ tolerance
  · simp [h1]
  · simp [h1, ht]

theorem normalize_total_witness :
    normalize_font_sizeE (-1) 5 = Except.ok (normalize_font_size (-1) 5) :=
  normalize_total_of_nonzero_tolerance (-1) 5 (by norm_num) (by norm_num)

/-- C9: for tolerance at least 1.0 normalization rounds to an integer, and
integers are fixed points of that rounding, so normalization is
idempotent. -/
theorem normalize_idempotent_of_one_le (tolerance x : ℚ) (h : 1 ≤ tolerance) :
    normalize_font_size tolerance (normalize_font_size tolerance x) =
      normalize_font_size tolerance x := by
  rw [normalize_font_size_int tolerance x h,
      normalize_font_size_int tolerance _ h, roundHE_intCast]

theorem normalize_idempotent_witness :
    normalize_font_size 1 (normalize_font_size 1 (7/2)) =
      normalize_font_size 1 (7/2) :=
  normalize_idempotent_of_one_le 1 (7/2) (le_refl 1)

/-- C6, counterexample: rendering the detected 2x2 grid
`[["A","B"],["C","D"]]` yields an output with 2 newline characters, i.e. 3
lines (header, separator, one data row) — a 4-line output would need 3
newline separators, so the claimed 4-line shape is false. -/
theorem format_table_2x2_counterexample :
    (format_table_markdown [["A", "B"], ["C", "D"]]).data.count '\n' = 2 ∧
      (2 : ℕ) ≠ 3 := by
  constructor
  · decide
  · decide

/-- C6, amended: rendering the detected 2x2 grid `[["A","B"],["C","D"]]`
yields the 3-line output header / dash separator / one data row, each cell
left-justified and padded to its column's maximum width; the data row reads
`| D | D |`, not `| C | D |`, because the generator expression at line 152
reads the Python variable `cell` left over from the column-width loop (the
last cell of the last row) instead of the current row's cells. -/
theorem format_table_2x2_rendering :
    format_table_markdown [["A", "B"], ["C", "D"]] =
      "| A | B |\n|---|---|\n| D | D |" := by
  decide

/-- C8: a non-empty span renders as `***text***` when classified both bold
and italic, `**text**` when bold only, `*text*` when italic only, and as
the plain stripped text when neither. -/
theorem span_emphasis_wrap (s : Span) (h : pystrip s.text ≠ "") :
    (is_bold s.font s.flags = true → is_italic s.font s.flags = true →
        formatSpanText s = "***" ++ pystrip s.text ++ "***") ∧
    (is_bold s.font s.flags = true → is_italic s.font s.flags = false →
        formatSpanText s = "**" ++ pystrip s.text ++ "**") ∧
    (is_bold s.font s.flags = false → is_italic s.font s.flags = true →
        formatSpanText s = "*" ++ pystrip s.text ++ "*") ∧
    (is_bold s.font s.flags = false → is_italic s.font s.flags = false →
        formatSpanText s = pystrip s.text) := by
  refine ⟨?_, ?_, ?_, ?_⟩ <;> intro hb hi <;> simp [formatSpanText, hb, hi]

theorem span_emphasis_wrap_witness :
    formatSpanText ⟨" Word ", 12, "Times-BoldItalic", 0⟩ = "***Word***" := by
  have h := span_emphasis_wrap ⟨" Word ", 12, "Times-BoldItalic", 0⟩ (by decide)
  exact (h.1 (by decide) (by decide)).trans (by decide)

theorem mem_blockRowEntries (b : Block) (e : ℚ × ℚ × String) :
    e ∈ blockRowEntries b ↔
      ∃ ls, b.lines = some ls ∧ ∃ l ∈ ls,
        lineCellText l ≠ "" ∧
        e = (round1 b.bbox.y0, round1 l.bbox.x0, lineCellText l) := by
  cases hb : b.lines with
  | none => simp [blockRowEntries, hb]
  | some ls =>
    simp only [blockRowEntries, hb, List.mem_filterMap, Option.some.injEq,
      exists_eq_left']
    constructor
    · rintro ⟨l, hl, hf⟩
      by_cases hc : lineCellText l = ""
      · simp [hc] at hf
      · simp only [hc, if_false] at hf
        exact ⟨l, hl, hc, (Option.some.inj hf).symm⟩
    · rintro ⟨l, hl, hc, he⟩
      exact ⟨l, hl, by simp [hc, he]⟩

/-- C1, amended: in table detection every grouped cell entry comes from a
line with non-empty cell text; its row key is the *enclosing block's*
bounding-box top Y rounded to one decimal place (not the line's own top Y),
its column key is the line's bounding-box left X rounded to one decimal
place, and its cell content is the space-joined, trimmed concatenation of
the line's span texts. -/
theorem detect_table_row_entries (blocks : List Block) (e : ℚ × ℚ × String) :
    (e ∈ rowEntries blocks ↔
      ∃ b ∈ blocks, ∃ ls, b.lines = some ls ∧ ∃ l ∈ ls,
        lineCellText l ≠ "" ∧
        e = (round1 b.bbox.y0, round1 l.bbox.x0, lineCellText l)) ∧
    detect_table blocks = detect_tableFrom (rowEntries blocks) := by
  constructor
  · simp only [rowEntries, List.mem_flatMap, mem_blockRowEntries]
  · rfl

/-- C1, counterexample: on a block whose second line sits at a different
top Y than the block itself, grouping by the block's top Y (what the code
does, lines 76-77) and grouping by each line's own top Y (what the claim
states) produce different tables. -/
theorem detect_table_row_key_counterexample :
    detect_table exampleTableBlocks = some [["A", "B"], ["C", "D"]] ∧
    detect_tableLineRowKey exampleTableBlocks =
      some [["A", ""], ["", "B"], ["C", "D"]] ∧
    detect_table exampleTableBlocks ≠ detect_tableLineRowKey exampleTableBlocks := by
  refine ⟨by decide, by decide, by decide⟩

/-- C5, counterexample: in a two-page document whose page one ends inside a
code run, the state at the boundary after page one still has the in-code
flag set and a pending buffered line — the accumulator is not cleared at
page boundaries. -/
theorem code_state_page_boundary_counterexample :
    (convertStateAfter 1 true exampleCodeDoc 1).in_code_block = true ∧
    (convertStateAfter 1 true exampleCodeDoc 1).code_buffer = ["x"] ∧
    (1 : ℕ) < exampleCodeDoc.length := by
  refine ⟨by decide, by decide, by decide⟩

theorem foldl_induction {α σ : Type*} (f : σ → α → σ) (P : σ → Prop)
    (hf : ∀ s a, P s → P (f s a)) :
    ∀ (l : List α) (s : σ), P s → P (l.foldl f s)
  | [], _, hs => hs
  | a :: l, s, hs => foldl_induction f P hf l (f s a) (hf s a hs)

theorem processLine_fence (hm : List (ℚ × ℕ)) (tolerance : ℚ) (st : ConvState)
    (l : Line) (h : st.opens = st.closes + (if st.in_code_block then 1 else 0)) :
    (processLine hm tolerance st l).opens =
      (processLine hm tolerance st l).closes +
        (if (processLine hm tolerance st l).in_code_block then 1 else 0) := by
  unfold processLine
  by_cases h0 : lineTextOf tolerance l = ""
  · simpa [h0] using h
  · rw [if_neg h0]
    by_cases hc : is_code_block (lineFontOf tolerance l) (lineTextOf tolerance l) = true
    · cases hic : st.in_code_block with
      | true => simp [hc, hic] at h ⊢; omega
      | false => simp [hc, hic] at h ⊢; omega
    · simp only [hc, if_false]
      cases hmatch : (lineSizeOf tolerance l).bind (lookupLevel hm) with
      | none =>
        cases hic : st.in_code_block with
        | true => simp [hic] at h ⊢; omega
        | false => simp [hic] at h ⊢; omega
      | some heading_level =>
        cases hic : st.in_code_block with
        | true => simp [hic] at h ⊢; omega
        | false => simp [hic] at h ⊢; omega

theorem processPage_fence (hm : List (ℚ × ℕ)) (tolerance : ℚ)
    (detect_tables : Bool) (st : ConvState) (p : Page)
    (h : st.opens = st.closes + (if st.in_code_block then 1 else 0)) :
    (processPage hm tolerance detect_tables st p).opens =
      (processPage hm tolerance detect_tables st p).closes +
        (if (processPage hm tolerance detect_tables st p).in_code_block then 1 else 0) := by
  unfold processPage
  cases hdt : (if detect_tables then detect_table p.blocks else none) with
  | some table_data => simpa using h
  | none =>
    have h1 :
        (fun st : ConvState =>
          st.opens = st.closes + (if st.in_code_block then 1 else 0))
        (p.blocks.foldl
          (fun st b =>
            match b.lines with
            | none => st
            | some ls => ls.foldl (processLine hm tolerance) st)
          st) := by
      refine foldl_induction _
        (fun st : ConvState =>
          st.opens = st.closes + (if st.in_code_block then 1 else 0))
        ?_ p.blocks st h
      intro s b hs
      cases hb : b.lines with
      | none => simpa [hb] using hs
      | some ls =>
        simp only [hb]
        exact foldl_induction _ _ (fun s' l' hs' => processLine_fence hm tolerance s' l' hs') ls s hs
    simpa using h1

/-- C4: in every convert pass, the number of fence-opening emissions equals
the number of fence-closing emissions once the final flush has run: every
fenced code block the pass opens is closed, either at the first later
non-code line or by the final flush after all pages. -/
theorem convert_fence_balance (tolerance : ℚ) (detect_tables : Bool)
    (doc : List Page) :
    (finalState tolerance detect_tables doc).opens =
      (finalState tolerance detect_tables doc).closes := by
  have h :
      (convertStateAfter tolerance detect_tables doc doc.length).opens =
        (convertStateAfter tolerance detect_tables doc doc.length).closes +
          (if (convertStateAfter tolerance detect_tables doc doc.length).in_code_block
            then 1 else 0) := by
    unfold convertStateAfter
    exact foldl_induction _ _
      (fun s p hs =>
        processPage_fence (size_to_heading (tallySizes tolerance doc)) tolerance
          detect_tables s p hs)
      (doc.take doc.length) initState (by simp [initState])
  unfold finalState
  cases hic : (convertStateAfter tolerance detect_tables doc doc.length).in_code_block with
  | true => simp only [hic, if_true]; simp [hic] at h; omega
  | false => simp only [hic, if_false]; simpa [hic] using h

theorem processLine_clear_inv (hm : List (ℚ × ℕ)) (tolerance : ℚ)
    (st : ConvState) (l : Line)
    (h : st.in_code_block = false → st.code_buffer = []) :
    (processLine hm tolerance st l).in_code_block = false →
    (processLine hm tolerance st l).code_buffer = [] := by
  unfold processLine
  by_cases h0 : lineTextOf tolerance l = ""
  · simpa [h0] using h
  · rw [if_neg h0]
    by_cases hc : is_code_block (lineFontOf tolerance l) (lineTextOf tolerance l) = true
    · cases hic : st.in_code_block with
      | true => simp [hc, hic]
      | false => simp [hc, hic]
    · simp only [hc, Bool.false_eq_true, if_false]
      cases hmatch : (lineSizeOf tolerance l).bind (lookupLevel hm) with
      | none =>
        cases hic : st.in_code_block with
        | true => simp [hic]
        | false => simp [hic, h hic]
      | some heading_level =>
        cases hic : st.in_code_block with
        | true => simp [hic]
        | false => simp [hic, h hic]

theorem processPage_clear_inv (hm : List (ℚ × ℕ)) (tolerance : ℚ)
    (detect_tables : Bool) (st : ConvState) (p : Page)
    (h : st.in_code_block = false → st.code_buffer = []) :
    (processPage hm tolerance detect_tables st p).in_code_block = false →
    (processPage hm tolerance detect_tables st p).code_buffer = [] := by
  unfold processPage
  cases hdt : (if detect_tables then detect_table p.blocks else none) with
  | some table_data => simpa using h
  | none =>
    have h1 :
        (fun st : ConvState => st.in_code_block = false → st.code_buffer = [])
        (p.blocks.foldl
          (fun st b =>
            match b.lines with
            | none => st
            | some ls => ls.foldl (processLine hm tolerance) st)
          st) := by
      refine foldl_induction _
        (fun st : ConvState => st.in_code_block = false → st.code_buffer = [])
        ?_ p.blocks st h
      intro s b hs
      cases hb : b.lines with
      | none => simpa [hb] using hs
      | some ls =>
        simp only [hb]
        exact foldl_induction _ _
          (fun s' l' hs' => processLine_clear_inv hm tolerance s' l' hs') ls s hs
    simpa using h1

/-- C5, amended: the code-block accumulator persists across page boundaries
within one convert pass rather than being cleared per page.  Every state
the pass reaches satisfies the invariant that the buffer is empty whenever
the in-code flag is down (first part).  Whenever a non-empty non-code line
is encountered the accumulator is flushed: the pending buffered lines are
emitted in order into the output, followed by the closing fence when a code
run was open and then the line's own emitted unit, and the flag and buffer
are cleared (second part, whose hypothesis is the proven invariant).  At
document end a still-open code run has its buffer emitted and its fence
closed (third part). -/
theorem code_accumulator_flush :
    (∀ (tolerance : ℚ) (detect_tables : Bool) (doc : List Page) (k : ℕ),
        (convertStateAfter tolerance detect_tables doc k).in_code_block = false →
        (convertStateAfter tolerance detect_tables doc k).code_buffer = []) ∧
    (∀ (hm : List (ℚ × ℕ)) (tolerance : ℚ) (st : ConvState) (l : Line),
        (st.in_code_block = false → st.code_buffer = []) →
        lineTextOf tolerance l ≠ "" →
        is_code_block (lineFontOf tolerance l) (lineTextOf tolerance l) = false →
        (processLine hm tolerance st l).in_code_block = false ∧
        (processLine hm tolerance st l).code_buffer = [] ∧
        ∃ u : String,
          (processLine hm tolerance st l).markdown_content =
            st.markdown_content
              ++ (if st.in_code_block = true then st.code_buffer ++ ["```\n"] else [])
              ++ [u]) ∧
    (∀ (tolerance : ℚ) (detect_tables : Bool) (doc : List Page),
        (convertStateAfter tolerance detect_tables doc doc.length).in_code_block = true →
        (finalState tolerance detect_tables doc).markdown_content =
          (convertStateAfter tolerance detect_tables doc doc.length).markdown_content
            ++ (convertStateAfter tolerance detect_tables doc doc.length).code_buffer
            ++ ["```\n"]) := by
  refine ⟨?_, ?_, ?_⟩
  · intro tolerance detect_tables doc k
    unfold convertStateAfter
    refine foldl_induction _
      (fun st : ConvState => st.in_code_block = false → st.code_buffer = [])
      ?_ (doc.take k) initState (fun _ => rfl)
    intro s p hs
    exact processPage_clear_inv (size_to_heading (tallySizes tolerance doc))
      tolerance detect_tables s p hs
  · intro hm tolerance st l hinv hne hnc
    unfold processLine
    rw [if_neg hne]
    simp only [hnc, Bool.false_eq_true, if_false]
    cases hmatch : (lineSizeOf tolerance l).bind (lookupLevel hm) with
    | none =>
      cases hic : st.in_code_block with
      | true =>
        exact ⟨by simp [hic], by simp [hic], lineTextOf tolerance l, by simp [hic]⟩
      | false =>
        exact ⟨by simp [hic], by simp [hic, hinv hic], lineTextOf tolerance l,
          by simp [hic]⟩
    | some heading_level =>
      cases hic : st.in_code_block with
      | true =>
        exact ⟨by simp [hic], by simp [hic],
          headingMarker heading_level ++ " " ++ cleanText (lineTextOf tolerance l),
          by simp [hic]⟩
      | false =>
        exact ⟨by simp [hic], by simp [hic, hinv hic],
          headingMarker heading_level ++ " " ++ cleanText (lineTextOf tolerance l),
          by simp [hic]⟩
  · intro tolerance detect_tables doc h
    unfold finalState
    simp [h]

theorem string_data_append (s t : String) : (s ++ t).data = s.data ++ t.data :=
  rfl

theorem foldl_data_prefix {β : Type*} (f : String → β → String)
    (hf : ∀ acc b, ∃ add : List Char, (f acc b).data = acc.data ++ add) :
    ∀ (l : List β) (acc : String),
      ∃ rest : List Char, (l.foldl f acc).data = acc.data ++ rest := by
  intro l
  induction l with
  | nil => intro acc; exact ⟨[], by simp⟩
  | cons b t ih =>
    intro acc
    obtain ⟨a1, h1⟩ := hf acc b
    obtain ⟨r, hr⟩ := ih (f acc b)
    exact ⟨a1 ++ r, by rw [List.foldl_cons, hr, h1, List.append_assoc]⟩

theorem generate_toc_starts (hs : List (ℕ × String)) (h : hs ≠ []) :
    ∃ rest : List Char,
      (generate_toc hs).data = "## Table of Contents\n\n".data ++ rest := by
  unfold generate_toc
  rw [if_neg (by simpa [List.isEmpty_iff] using h)]
  obtain ⟨r, hr⟩ :=
    foldl_data_prefix
      (fun toc lt =>
        toc ++ String.join (List.replicate (lt.1 - 1) "  ")
          ++ "- [" ++ lt.2 ++ "](#" ++ anchorOf lt.2 ++ ")\n")
      (fun acc b =>
        ⟨(String.join (List.replicate (b.1 - 1) "  ")).data
            ++ "- [".data ++ b.2.data ++ "](#".data ++ (anchorOf b.2).data ++ ")\n".data, by
          simp [string_data_append, List.append_assoc]⟩)
      hs "## Table of Contents\n\n"
  exact ⟨r ++ "\n".data, by rw [string_data_append, hr, List.append_assoc]⟩

/-- C7: the convert pass prepends the Table of Contents block exactly when
the `include_toc` option is set and at least one heading was recorded;
otherwise the output is the joined body alone.  A prepended TOC block
begins with the `## Table of Contents` header. -/
theorem toc_presence (tolerance : ℚ) (include_toc detect_tables : Bool)
    (doc : List Page) :
    (convert_to_markdown tolerance include_toc detect_tables doc =
      if include_toc = true ∧ headingsOf tolerance detect_tables doc ≠ [] then
        generate_toc (headingsOf tolerance detect_tables doc)
          ++ bodyOf tolerance detect_tables doc
      else
        bodyOf tolerance detect_tables doc) ∧
    (headingsOf tolerance detect_tables doc ≠ [] →
      ∃ rest : List Char,
        (generate_toc (headingsOf tolerance detect_tables doc)).data =
          "## Table of Contents\n\n".data ++ rest) := by
  constructor
  · unfold convert_to_markdown
    cases hi : include_toc with
    | false => simp
    | true =>
      by_cases hh : headingsOf tolerance detect_tables doc = []
      · simp [hh]
      · simp [hh, List.isEmpty_iff]
  · intro hh
    exact generate_toc_starts _ hh

theorem pyreplaceAux_star_free :
    ∀ (fuel : ℕ) (cs : List Char), cs.length ≤ fuel →
      '*' ∉ pyreplaceAux ['*'] [] fuel cs := by
  intro fuel
  induction fuel with
  | zero =>
    intro cs h
    have : cs = [] := List.eq_nil_of_length_eq_zero (Nat.le_zero.mp h)
    simp [this, pyreplaceAux]
  | succ n ih =>
    intro cs h
    cases cs with
    | nil => simp [pyreplaceAux]
    | cons c rest =>
      by_cases hpre : (['*'] : List Char).isPrefixOf (c :: rest) = true
      · have hcalc : pyreplaceAux ['*'] [] (n + 1) (c :: rest) =
            pyreplaceAux ['*'] [] n rest := by
          simp [pyreplaceAux, hpre]
        rw [hcalc]
        exact ih rest (Nat.le_of_succ_le_succ (by simpa using h))
      · have hc : ¬ c = '*' := by
          intro heq
          exact hpre (by simp [hpre, List.isPrefixOf, heq])
        have hcalc : pyreplaceAux ['*'] [] (n + 1) (c :: rest) =
            c :: pyreplaceAux ['*'] [] n rest := by
          simp [pyreplaceAux, hpre]
        rw [hcalc]
        intro hmem
        rcases List.mem_cons.mp hmem with heq | hmem2
        · exact hc heq.symm
        · exact ih rest (Nat.le_of_succ_le_succ (by simpa using h)) hmem2

theorem cleanText_star_free (s : String) : '*' ∉ (cleanText s).data := by
  unfold cleanText pyreplace pyreplaceL
  exact pyreplaceAux_star_free _ _ le_rfl

theorem processLine_star_inv (hm : List (ℚ × ℕ)) (tolerance : ℚ)
    (st : ConvState) (l : Line)
    (h : (∀ u ∈ st.code_buffer, '*' ∉ u.data) ∧
         (∀ e ∈ st.headings, '*' ∉ e.2.data)) :
    (∀ u ∈ (processLine hm tolerance st l).code_buffer, '*' ∉ u.data) ∧
    (∀ e ∈ (processLine hm tolerance st l).headings, '*' ∉ e.2.data) := by
  unfold processLine
  by_cases h0 : lineTextOf tolerance l = ""
  · simpa [h0] using h
  · rw [if_neg h0]
    by_cases hc : is_code_block (lineFontOf tolerance l) (lineTextOf tolerance l) = true
    · cases hic : st.in_code_block with
      | true =>
        simp only [hc, if_true, hic, Bool.not_true, Bool.false_eq_true, if_false]
        refine ⟨?_, h.2⟩
        intro u hu
        rcases List.mem_append.mp hu with h1 | h2
        · exact h.1 u h1
        · rw [List.mem_singleton.mp h2]; exact cleanText_star_free _
      | false =>
        simp only [hc, if_true, hic, Bool.not_false, if_true]
        refine ⟨?_, h.2⟩
        intro u hu
        rcases List.mem_append.mp hu with h1 | h2
        · exact h.1 u h1
        · rw [List.mem_singleton.mp h2]; exact cleanText_star_free _
    · simp only [hc, if_false]
      cases hmatch : (lineSizeOf tolerance l).bind (lookupLevel hm) with
      | none =>
        cases hic : st.in_code_block with
        | true =>
          simp only [hic, if_true]
          exact ⟨by simp, h.2⟩
        | false => simpa [hic] using h
      | some heading_level =>
        cases hic : st.in_code_block with
        | true =>
          simp only [hic, if_true]
          refine ⟨by simp, ?_⟩
          intro e he
          rcases List.mem_append.mp he with h1 | h2
          · exact h.2 e h1
          · rw [List.mem_singleton.mp h2]; exact cleanText_star_free _
        | false =>
          simp only [hic, Bool.false_eq_true, if_false]
          refine ⟨h.1, ?_⟩
          intro e he
          rcases List.mem_append.mp he with h1 | h2
          · exact h.2 e h1
          · rw [List.mem_singleton.mp h2]; exact cleanText_star_free _

theorem processPage_star_inv (hm : List (ℚ × ℕ)) (tolerance : ℚ)
    (detect_tables : Bool) (st : ConvState) (p : Page)
    (h : (∀ u ∈ st.code_buffer, '*' ∉ u.data) ∧
         (∀ e ∈ st.headings, '*' ∉ e.2.data)) :
    (∀ u ∈ (processPage hm tolerance detect_tables st p).code_buffer, '*' ∉ u.data) ∧
    (∀ e ∈ (processPage hm tolerance detect_tables st p).headings, '*' ∉ e.2.data) := by
  unfold processPage
  cases hdt : (if detect_tables then detect_table p.blocks else none) with
  | some table_data => simpa using h
  | none =>
    have h1 :
        (fun st : ConvState =>
          (∀ u ∈ st.code_buffer, '*' ∉ u.data) ∧
          (∀ e ∈ st.headings, '*' ∉ e.2.data))
        (p.blocks.foldl
          (fun st b =>
            match b.lines with
            | none => st
            | some ls => ls.foldl (processLine hm tolerance) st)
          st) := by
      refine foldl_induction _
        (fun st : ConvState =>
          (∀ u ∈ st.code_buffer, '*' ∉ u.data) ∧
          (∀ e ∈ st.headings, '*' ∉ e.2.data))
        ?_ p.blocks st h
      intro s b hs
      cases hb : b.lines with
      | none => simpa [hb] using hs
      | some ls =>
        simp only [hb]
        exact foldl_induction _ _
          (fun s' l' hs' => processLine_star_inv hm tolerance s' l' hs') ls s hs
    simpa using h1

/-- C10: the emphasis-marker stripping `replace("**", "").replace("*", "")`
removes every asterisk, including asterisks that were literal characters of
the span text; consequently every line buffered inside a code run (the
lines later emitted inside the fence) and every recorded heading text —
whose emitted line is the `#` marker, a space and that text — contains no
asterisk at all. -/
theorem code_and_heading_star_free :
    (∀ s : String, '*' ∉ (cleanText s).data) ∧
    (∀ (tolerance : ℚ) (detect_tables : Bool) (doc : List Page) (k : ℕ),
      (∀ e ∈ headingsOf tolerance detect_tables doc, '*' ∉ e.2.data) ∧
      (∀ u ∈ (convertStateAfter tolerance detect_tables doc k).code_buffer,
        '*' ∉ u.data)) := by
  refine ⟨cleanText_star_free, ?_⟩
  intro tolerance detect_tables doc k
  have hfold : ∀ m : ℕ,
      (∀ u ∈ (convertStateAfter tolerance detect_tables doc m).code_buffer,
        '*' ∉ u.data) ∧
      (∀ e ∈ (convertStateAfter tolerance detect_tables doc m).headings,
        '*' ∉ e.2.data) := by
    intro m
    unfold convertStateAfter
    refine foldl_induction _
      (fun st : ConvState =>
        (∀ u ∈ st.code_buffer, '*' ∉ u.data) ∧
        (∀ e ∈ st.headings, '*' ∉ e.2.data))
      ?_ (doc.take m) initState (by simp [initState])
    intro s p hs
    exact processPage_star_inv (size_to_heading (tallySizes tolerance doc))
      tolerance detect_tables s p hs
  refine ⟨?_, (hfold k).1⟩
  have hfin : headingsOf tolerance detect_tables doc =
      (convertStateAfter tolerance detect_tables doc doc.length).headings := by
    unfold headingsOf finalState
    cases hic : (convertStateAfter tolerance detect_tables doc doc.length).in_code_block <;>
      simp [hic]
  rw [hfin]
  exact (hfold doc.length).2

theorem assignLevels_length (fs : List (ℚ × ℕ)) :
    ∀ (l : List ℚ) (lvl : ℕ), (assignLevels fs l lvl).length ≤ l.length := by
  intro l
  induction l with
  | nil => intro lvl; simp [assignLevels]
  | cons s rest ih =>
    intro lvl
    unfold assignLevels
    by_cases hc : 2 < lookupCount fs s
    · simpa [hc] using ih (lvl + 1)
    · simp only [hc, if_false, List.length_cons]
      exact le_trans (ih lvl) (Nat.le_succ _)

theorem assignLevels_snd (fs : List (ℚ × ℕ)) :
    ∀ (l : List ℚ) (lvl : ℕ),
      (assignLevels fs l lvl).map Prod.snd =
        List.range' lvl (assignLevels fs l lvl).length := by
  intro l
  induction l with
  | nil => intro lvl; simp [assignLevels]
  | cons s rest ih =>
    intro lvl
    unfold assignLevels
    by_cases hc : 2 < lookupCount fs s
    · simp only [hc, if_true, List.map_cons, List.length_cons]
      rw [ih (lvl + 1), List.range'_succ]
    · simp only [hc, if_false]
      exact ih lvl

theorem assignLevels_mem (fs : List (ℚ × ℕ)) :
    ∀ (l : List ℚ) (lvl : ℕ) (e : ℚ × ℕ), e ∈ assignLevels fs l lvl →
      e.1 ∈ l ∧ 2 < lookupCount fs e.1 ∧ lvl ≤ e.2 := by
  intro l
  induction l with
  | nil => intro lvl e he; simp [assignLevels] at he
  | cons s rest ih =>
    intro lvl e he
    unfold assignLevels at he
    by_cases hc : 2 < lookupCount fs s
    · simp only [hc, if_true, List.mem_cons] at he
      rcases he with he | he
      · subst he
        exact ⟨List.mem_cons_self _ _, hc, le_refl _⟩
      · obtain ⟨h1, h2, h3⟩ := ih (lvl + 1) e he
        exact ⟨List.mem_cons_of_mem _ h1, h2, le_trans (Nat.le_succ _) h3⟩
    · simp only [hc, if_false] at he
      obtain ⟨h1, h2, h3⟩ := ih lvl e he
      exact ⟨List.mem_cons_of_mem _ h1, h2, h3⟩

theorem assignLevels_mono (fs : List (ℚ × ℕ)) :
    ∀ (l : List ℚ) (lvl : ℕ), l.Pairwise (· > ·) →
      ∀ e1 ∈ assignLevels fs l lvl, ∀ e2 ∈ assignLevels fs l lvl,
        e2.1 < e1.1 → e1.2 < e2.2 := by
  intro l
  induction l with
  | nil => intro lvl _ e1 he1; simp [assignLevels] at he1
  | cons s rest ih =>
    intro lvl hp e1 he1 e2 he2 hlt
    have hp' : rest.Pairwise (· > ·) := (List.pairwise_cons.mp hp).2
    have hgt : ∀ x ∈ rest, s > x := (List.pairwise_cons.mp hp).1
    unfold assignLevels at he1 he2
    by_cases hc : 2 < lookupCount fs s
    · simp only [hc, if_true, List.mem_cons] at he1 he2
      rcases he1 with he1 | he1 <;> rcases he2 with he2 | he2
      · exfalso
        rw [he1, he2] at hlt
        exact lt_irrefl _ hlt
      · have h2 := (assignLevels_mem fs rest (lvl + 1) e2 he2).2.2
        rw [he1]
        exact lt_of_lt_of_le (Nat.lt_succ_self lvl) h2
      · exfalso
        have h1 := (assignLevels_mem fs rest (lvl + 1) e1 he1).1
        rw [he2] at hlt
        exact absurd hlt (not_lt.mpr (le_of_lt (hgt e1.1 h1)))
      · exact ih (lvl + 1) hp' e1 he1 e2 he2 hlt
    · simp only [hc, if_false] at he1 he2
      exact ih lvl hp' e1 he1 e2 he2 hlt

theorem counterIncr_keys_nodup (d : List (ℚ × ℕ)) (k : ℚ)
    (h : (d.map Prod.fst).Nodup) : ((counterIncr d k).map Prod.fst).Nodup := by
  unfold counterIncr
  by_cases ha : d.any (fun e => e.1 = k) = true
  · simp only [ha, if_true]
    have hmap : (d.map fun e => if e.1 = k then (e.1, e.2 + 1) else e).map Prod.fst
        = d.map Prod.fst := by
      rw [List.map_map]
      refine List.map_congr_left ?_
      intro e _
      by_cases hek : e.1 = k <;> simp [hek]
    rw [hmap]
    exact h
  · simp only [ha, Bool.false_eq_true, if_false, List.map_append]
    refine List.Nodup.append h (List.nodup_singleton k) ?_
    intro x hx hk
    simp only [List.map_cons, List.map_nil, List.mem_singleton] at hk
    subst hk
    obtain ⟨e, he, hfst⟩ := List.mem_map.mp hx
    rw [List.any_eq_true] at ha
    exact ha ⟨e, he, by simp [hfst]⟩

theorem tallySizes_keys_nodup (tolerance : ℚ) (doc : List Page) :
    ((tallySizes tolerance doc).map Prod.fst).Nodup := by
  unfold tallySizes
  refine foldl_induction _
    (fun d : List (ℚ × ℕ) => (d.map Prod.fst).Nodup) ?_ (docSpans doc) [] (by simp)
  intro d s hd
  exact counterIncr_keys_nodup d _ hd

theorem sortSizesDesc_pairwise (sizes : List ℚ) (h : sizes.Nodup) :
    (sortSizesDesc sizes).Pairwise (· > ·) := by
  have hs : (sortSizesDesc sizes).Pairwise (fun a b : ℚ => b ≤ a) := by
    unfold sortSizesDesc
    haveI : IsTotal ℚ (fun a b : ℚ => b ≤ a) := ⟨fun a b => le_total b a⟩
    haveI : IsTrans ℚ (fun a b : ℚ => b ≤ a) := ⟨fun _ _ _ hab hbc => le_trans hbc hab⟩
    exact List.sorted_insertionSort _ _
  have hn : (sortSizesDesc sizes).Nodup :=
    ((List.perm_insertionSort _ sizes).nodup_iff).mpr h
  exact (List.Pairwise.and hs hn).imp fun hab => lt_of_le_of_ne hab.1 (Ne.symm hab.2)

/-- C2: after the analysis pass, every entry of the heading map is one of
the top 6 canonical sizes in descending order with a tally above 2; the
assigned levels read in order are exactly the contiguous run `1..k` for the
`k` accepted sizes; the map has at most 6 entries; and a larger accepted
size always gets a strictly smaller level. -/
theorem heading_map_properties (tolerance : ℚ) (doc : List Page)
    (ht : tolerance ≠ 0) :
    (size_to_heading (tallySizes tolerance doc)).length ≤ 6 ∧
    (size_to_heading (tallySizes tolerance doc)).map Prod.snd =
      List.range' 1 (size_to_heading (tallySizes tolerance doc)).length ∧
    (∀ e ∈ size_to_heading (tallySizes tolerance doc),
      e.1 ∈ (sortSizesDesc ((tallySizes tolerance doc).map Prod.fst)).take 6 ∧
      2 < lookupCount (tallySizes tolerance doc) e.1) ∧
    (∀ e1 ∈ size_to_heading (tallySizes tolerance doc),
      ∀ e2 ∈ size_to_heading (tallySizes tolerance doc),
      e2.1 < e1.1 → e1.2 < e2.2) := by
  refine ⟨?_, ?_, ?_, ?_⟩
  · refine le_trans (assignLevels_length _ _ _) ?_
    simp [List.length_take]
  · exact assignLevels_snd _ _ _
  · intro e he
    have h := assignLevels_mem _ _ _ e he
    exact ⟨h.1, h.2.1⟩
  · intro e1 he1 e2 he2 hlt
    refine assignLevels_mono _ _ 1 ?_ e1 he1 e2 he2 hlt
    exact List.Pairwise.sublist (List.take_sublist 6 _)
      (sortSizesDesc_pairwise _ (tallySizes_keys_nodup tolerance doc))

theorem heading_map_properties_witness :
    (size_to_heading (tallySizes 1 exampleTitleDoc)).length ≤ 6 :=
  (heading_map_properties 1 exampleTitleDoc (by norm_num)).1
